import Mathlib

/-!
Verification development for `scripts/migrate_personas.py` of the `loom`
repository: a one-shot batch migration of persona directories
(`PERSONA.md` + `AI_START_HERE.md`) into a single `SKILL.md` with YAML
frontmatter.

The Python source is shallowly embedded here:
* text is modelled as `List Char` internally (`String` at the API border),
  mirroring Python string operations character by character;
* Python dicts (which preserve insertion order) and directory listings are
  modelled as association lists `List (String × α)` with in-place update
  `aset` and first-hit lookup `alookup`;
* the three regular expressions of the script are modelled as explicit
  scanning functions with the leftmost-match and greedy/backtracking
  semantics of Python `re`;
* the filesystem state of one persona directory is a structure `Dir`
  (direct child files, files already inside `references/`, and whether
  `references/` exists); `create_skill_md` is a function `Dir → Bool × Dir`;
* `Path.rename` follows `os.rename` POSIX semantics: an existing
  destination file is replaced silently;
* the driver `main` acts on a `World` (root existence flag plus the
  organization/persona directory tree) and returns the process exit code,
  the success count and the final state of every persona directory.
-/

set_option maxRecDepth 10000

/-! ## Character and list-of-characters helpers (Python string operations) -/

/-- Whitespace as recognized by Python `str.strip` / the regex class `\s`
(ASCII range: space, tab, newline, carriage return, vertical tab, form feed). -/
def pySpace (c : Char) : Bool :=
  c = ' ' || c = '\t' || c = '\n' || c = '\r' || c = '\x0b' || c = '\x0c'

/-- Python `str.lstrip()` on a list of characters. -/
def ltrimWs (cs : List Char) : List Char := cs.dropWhile pySpace

/-- Python `str.rstrip()` on a list of characters. -/
def rtrimWs (cs : List Char) : List Char := (cs.reverse.dropWhile pySpace).reverse

/-- Python `str.strip()` on a list of characters. -/
def trimWs (cs : List Char) : List Char := rtrimWs (ltrimWs cs)

/-- Python `str.split(sep)` for a single-character separator: splits on every
occurrence, keeping empty pieces; the result is always non-empty. -/
def splitChar (sep : Char) : List Char → List (List Char)
  | [] => [[]]
  | c :: rest =>
    if c = sep then [] :: splitChar sep rest
    else
      match splitChar sep rest with
      | l :: ls => (c :: l) :: ls
      | [] => [[c]]

/-- ASCII lower-casing, as applied by Python `str.lower()` to the ASCII
letters the regexes of this script capture. -/
def lc (c : Char) : Char := c.toLower

/-- Case-insensitive literal prefix test: the pattern (given lower-case)
matches the beginning of the text, as under `re.IGNORECASE`. -/
def ciPfx : List Char → List Char → Bool
  | [], _ => true
  | _ :: _, [] => false
  | p :: ps, c :: cs => p = lc c && ciPfx ps cs

/-- First index at which `pat` occurs as a contiguous substring of `cs`. -/
def findSub (cs pat : List Char) : Option Nat :=
  if pat.isPrefixOf cs then some 0
  else
    match cs with
    | [] => none
    | _ :: rest => (findSub rest pat).map (· + 1)

/-! ## Association lists: Python dicts and directory file tables

Python dicts preserve insertion order; assigning to an existing key keeps
its position, assigning to a new key appends.  `alookup` finds the first
entry for a key, `aset` is dict assignment, `aremove` deletes every entry
for a key (file deletion). -/

/-- Lookup of the entry for key `k` (Python `d[k]` / `d.get(k)`). -/
def alookup {α : Type} : List (String × α) → String → Option α
  | [], _ => none
  | p :: rest, k => if p.1 = k then some p.2 else alookup rest k

/-- Dict assignment `d[k] = v`: update in place if the key is present,
append otherwise. -/
def aset {α : Type} : List (String × α) → String → α → List (String × α)
  | [], k, v => [(k, v)]
  | p :: rest, k, v => if p.1 = k then (k, v) :: rest else p :: aset rest k v

/-- Removal of the entry for key `k` (file deletion by name). -/
def aremove {α : Type} (l : List (String × α)) (k : String) : List (String × α) :=
  l.filter (fun p => !(p.1 = k : Bool))

/-- Guarded removal, mirroring `if path.exists(): path.unlink()`. -/
def condRemove {α : Type} (l : List (String × α)) (k : String) : List (String × α) :=
  if (alookup l k).isSome then aremove l k else l

/-! ## The YAML value shapes occurring in this script

The metadata record built by the script is a dict whose values are strings,
one nested dict (under the key `metadata`), and lists of strings inside the
nested dict.  `YLeaf` are the values of the nested dict, `YVal` the values
of the top-level dict. -/

/-- Value of the nested `metadata` dict: a string or a list of strings. -/
inductive YLeaf : Type where
  | str (s : String)
  | list (items : List String)

/-- Value of the top-level metadata dict. -/
inductive YVal : Type where
  | str (s : String)
  | list (items : List String)
  | dict (entries : List (String × YLeaf))

/-- The nested `metadata` dict of a metadata record (`metadata['metadata']`). -/
def innerMeta (m : List (String × YVal)) : List (String × YLeaf) :=
  match alookup m "metadata" with
  | some (YVal.dict d) => d
  | _ => []

/-! ## The metadata extractor (`extract_metadata_from_persona`, lines 15-63)

The description scan (lines 24-49) walks the stripped lines carrying the
accumulated description lines, the `in_header` flag, and the optional
`role` captured from a heading.  The two `re.search` calls (lines 52 and
57) are modelled as leftmost scans below. -/

/-- Python truthiness of `metadata['metadata'].get('role')`: false when the
key is absent or holds the empty string (line 37). -/
def roleFalsy (role : Option (List Char)) : Bool :=
  match role with
  | none => true
  | some r => r.isEmpty

/-- The description/role line scan of lines 28-47: each line is stripped;
a blank line ends the scan once something is accumulated; a heading line
re-enters header mode and may capture the role; the first line after a
header block is accumulated unconditionally, later lines only when they do
not start with a heading or list marker. -/
def descScan : List (List Char) → List (List Char) → Bool → Option (List Char) →
    List (List Char) × Option (List Char)
  | [], acc, _, role => (acc, role)
  | l :: ls, acc, inHeader, role =>
    let line := trimWs l
    if line.isEmpty then
      if !acc.isEmpty then (acc, role) else descScan ls acc inHeader role
    else if line.head? = some '#' then
      let role' :=
        if roleFalsy role then some (trimWs (line.dropWhile (fun c => c = '#'))) else role
      descScan ls acc true role'
    else if inHeader then descScan ls (acc ++ [line]) false role
    else if line.head? = some '-' then (acc, role)
    else descScan ls (acc ++ [line]) inHeader role

/-- Characters of the regex class `[:\s]` in `Autonomy Level[:\s]+`. -/
def isColonSpace (c : Char) : Bool := c = ':' || pySpace c

/-- ASCII letter, the characters matched by `[a-z]` under `re.IGNORECASE`. -/
def isAsciiLetter (c : Char) : Bool := ('a' ≤ c && c ≤ 'z') || ('A' ≤ c && c ≤ 'Z')

/-- Attempt to match `Autonomy Level[:\s]+([a-z]+)` (case-insensitive) at
the start of `cs`; returns the captured group.  The two character classes
are disjoint, so greedy matching needs no backtracking. -/
def autonomyAt (cs : List Char) : Option (List Char) :=
  if ciPfx "autonomy level".toList cs then
    let rest := cs.drop 14
    let sep := rest.takeWhile isColonSpace
    if sep.isEmpty then none
    else
      let g := (rest.drop sep.length).takeWhile isAsciiLetter
      if g.isEmpty then none else some g
  else none

/-- `re.search(r'Autonomy Level[:\s]+([a-z]+)', content, re.IGNORECASE)`:
the leftmost position where the pattern matches wins (line 52). -/
def autonomySearch : List Char → Option (List Char)
  | [] => none
  | c :: cs =>
    match autonomyAt (c :: cs) with
    | some g => some g
    | none => autonomySearch cs

/-- Longest run of non-newline characters, i.e. a greedy `.+` without
`re.DOTALL` (the following `$` then holds at the run end). -/
def takeNonNl (cs : List Char) : List Char := cs.takeWhile (fun c => !(c = '\n' : Bool))

/-- Backtracking for `\s*(.+)$` after the colon of the specialties pattern:
`\s*` greedily consumes `k` whitespace characters (tried from the maximal
run length downward), then `(.+)` needs at least one non-newline character. -/
def specTry (rest : List Char) : Nat → Option (List Char)
  | 0 =>
    match rest with
    | [] => none
    | c :: cs => if c = '\n' then none else some (c :: takeNonNl cs)
  | k + 1 =>
    match rest.drop (k + 1) with
    | [] => specTry rest k
    | c :: cs => if c = '\n' then specTry rest k else some (c :: takeNonNl cs)

/-- The continuation `:\s*(.+)$` of the specialties pattern. -/
def specColonTail (r : List Char) : Option (List Char) :=
  match r with
  | [] => none
  | c :: r2 =>
    if c = ':' then specTry r2 (r2.takeWhile pySpace).length else none

/-- Attempt to match `Specialties?:\s*(.+)$` (multiline, case-insensitive)
at the start of `cs`.  Note the literal is `Specialtie` with an optional
trailing `s` — the greedy alternative with `s` is tried first. -/
def specAt (cs : List Char) : Option (List Char) :=
  if ciPfx "specialtie".toList cs then
    let rest := cs.drop 10
    match rest with
    | [] => none
    | c :: r2 =>
      if lc c = 's' then
        match specColonTail r2 with
        | some g => some g
        | none => specColonTail rest
      else specColonTail rest
  else none

/-- `re.search(r'Specialties?:\s*(.+)$', content, re.MULTILINE | re.IGNORECASE)`
(line 57): leftmost match wins. -/
def specSearch : List Char → Option (List Char)
  | [] => none
  | c :: cs =>
    match specAt (c :: cs) with
    | some g => some g
    | none => specSearch cs

/-- Lines 15-63 of the script.  The in-place updates of
`metadata['metadata']` during the scan and the regex steps are collapsed
into the assembly of the inner dict in insertion order
(`role`, `autonomy_level`, `specialties`); the outer dict receives its
`description` and `metadata` assignments through `aset`. -/
def extract_metadata_from_persona (content : String) (persona_name : String) :
    List (String × YVal) :=
  let cs := content.toList
  let m0 : List (String × YVal) :=
    [("name", YVal.str persona_name), ("description", YVal.str ""),
     ("metadata", YVal.dict [])]
  let scan := descScan (splitChar '\n' (trimWs cs)) [] true none
  let inner0 : List (String × YLeaf) :=
    match scan.2 with
    | some r => [("role", YLeaf.str (String.mk r))]
    | none => []
  let inner1 :=
    match autonomySearch cs with
    | some g => aset inner0 "autonomy_level" (YLeaf.str (String.mk (g.map lc)))
    | none => inner0
  let inner2 :=
    match specSearch cs with
    | some g =>
        aset inner1 "specialties"
          (YLeaf.list ((splitChar ',' g).map (fun p => String.mk (trimWs p))))
    | none => inner1
  let description := String.mk ((List.intercalate [' '] scan.1).take 500)
  aset (aset m0 "description" (YVal.str description)) "metadata" (YVal.dict inner2)

/-- Projection of the `description` field of a metadata record. -/
def descriptionOf (m : List (String × YVal)) : String :=
  match alookup m "description" with
  | some (YVal.str s) => s
  | _ => ""

/-! ## The document assembler (`create_skill_md`, lines 90-112) -/

/-- Simplified rendering of a nested-dict entry for
`yaml.dump(..., default_flow_style=False, sort_keys=False)`: block style at
the given indentation.  PyYAML scalar quoting is abstracted: the empty
string renders as a pair of single quotes and every other string verbatim;
no claim below depends on the concrete frontmatter text. -/
def yamlLeaf (indent : String) (k : String) (v : YLeaf) : String :=
  match v with
  | YLeaf.str s => indent ++ k ++ ": " ++ (if s = "" then "\x27\x27" else s) ++ "\n"
  | YLeaf.list items =>
      indent ++ k ++ ":\n" ++ String.join (items.map (fun i => indent ++ "- " ++ i ++ "\n"))

/-- Simplified rendering of a top-level entry of the metadata record. -/
def yamlEntry (k : String) (v : YVal) : String :=
  match v with
  | YVal.str s => k ++ ": " ++ (if s = "" then "\x27\x27" else s) ++ "\n"
  | YVal.list items => k ++ ":\n" ++ String.join (items.map (fun i => "- " ++ i ++ "\n"))
  | YVal.dict [] => k ++ ": {}\n"
  | YVal.dict d => k ++ ":\n" ++ String.join (d.map (fun p => yamlLeaf "  " p.1 p.2))

/-- `yaml.dump(metadata, default_flow_style=False, sort_keys=False)`
(line 91): entries in insertion order, block style. -/
def yamlDump (m : List (String × YVal)) : String :=
  String.join (m.map (fun p => yamlEntry p.1 p.2))

/-- Lines 85-88: the standard fields added to the extracted record before
dumping (`license`, `compatibility`, `metadata.author`, `metadata.version`). -/
def addStandardFields (metadata : List (String × YVal)) : List (String × YVal) :=
  let m1 := aset metadata "license" (YVal.str "Proprietary")
  let m2 := aset m1 "compatibility" (YVal.str "Designed for Loom")
  let inner := innerMeta m2
  aset m2 "metadata"
    (YVal.dict (aset (aset inner "author" (YLeaf.str "loom")) "version" (YLeaf.str "1.0")))

/-- Line 99: `re.sub(r'^#[^#\n]+\n+', '', ai_start_content.strip())`.
The whole text is whitespace-stripped first; then at most one leading
heading (a `#`, at least one character that is neither `#` nor newline,
then at least one newline) is removed.  The anchor `^` without
`re.MULTILINE` matches only at the start, so at most one substitution
happens.  The character class `[^#\n]+` cannot span a newline, so the only
candidate split point is its maximal run; if the run is not followed by a
newline the pattern fails entirely. -/
def stripQuickStart (ai : List Char) : List Char :=
  let s := trimWs ai
  match s with
  | [] => []
  | c :: rest =>
    if c = '#' then
      let run := rest.takeWhile (fun x => !(x = '#' : Bool) && !(x = '\n' : Bool))
      let after := rest.drop run.length
      if run.isEmpty then s
      else if after.head? = some '\n' then after.dropWhile (fun x => x = '\n')
      else s
    else s

/-- Line 106: `re.sub(r'^---\n.*?\n---\n', '', persona_content, flags=re.DOTALL)`.
With the lazy `.*?` the removed prefix ends at the first occurrence of a
newline-delimited `---` line after the opening one; no match leaves the
text unchanged. -/
def stripFrontmatter (pc : List Char) : List Char :=
  if "---\n".toList.isPrefixOf pc then
    match findSub (pc.drop 4) "\n---\n".toList with
    | some i => pc.drop (4 + i + 5)
    | none => pc
  else pc

/-- Lines 96-101: the quick-start body part.  Present only when the raw
`AI_START_HERE.md` content is non-empty and stripping the leading heading
leaves content; then a literal `# Quick Start` heading and blank line are
prepended. -/
def quickStartPart (ai : List Char) : List (List Char) :=
  if ai.isEmpty then []
  else
    let a := stripQuickStart ai
    if a.isEmpty then [] else ["# Quick Start\n\n".toList ++ a]

/-- Lines 103-107: the detailed body part.  Present when the raw
`PERSONA.md` content is non-empty; any leading frontmatter block is removed
and the result whitespace-stripped. -/
def personaPart (pc : List Char) : List (List Char) :=
  if pc.isEmpty then [] else [trimWs (stripFrontmatter pc)]

/-- Line 109: `'\n\n---\n\n'.join(body_parts)`. -/
def joinBody (parts : List (List Char)) : List Char :=
  List.intercalate "\n\n---\n\n".toList parts

/-- Lines 82-112: the complete text written to `SKILL.md`. -/
def skillContent (personaName pc ai : String) : String :=
  let metadata := addStandardFields (extract_metadata_from_persona pc personaName)
  let frontmatter := yamlDump metadata
  "---\n" ++ frontmatter ++ "---\n\n" ++
    String.mk (joinBody (quickStartPart ai.toList ++ personaPart pc.toList)) ++ "\n"

/-! ## The filesystem mutator (`create_skill_md`, lines 66-142) -/

/-- State of one persona directory: its base name, its direct child files
(name, content), the files inside its `references/` subdirectory, and
whether that subdirectory exists. -/
structure Dir : Type where
  name : String
  files : List (String × String)
  refs : List (String × String)
  refsDirExists : Bool

/-- The three file names excluded from the move to `references/` (line 123). -/
def skillNames : List String := ["SKILL.md", "PERSONA.md", "AI_START_HERE.md"]

/-- Lines 66-142.  Returns the success flag and the directory state after
the run.  The move of each additional file into `references/` uses
`Path.rename`, i.e. POSIX `os.rename`: an existing destination entry is
replaced silently. -/
def create_skill_md (d : Dir) : Bool × Dir :=
  match alookup d.files "PERSONA.md" with
  | none => (false, d)
  | some pc =>
    let ai := (alookup d.files "AI_START_HERE.md").getD ""
    let content := skillContent d.name pc ai
    let files1 := aset d.files "SKILL.md" content
    let additional := files1.filter (fun p => !skillNames.contains p.1)
    let files2 := if additional.isEmpty then files1
      else files1.filter (fun p => skillNames.contains p.1)
    let refs2 := if additional.isEmpty then d.refs
      else additional.foldl (fun r p => aset r p.1 p.2) d.refs
    let refsEx2 := if additional.isEmpty then d.refsDirExists else true
    let files3 := condRemove files2 "PERSONA.md"
    let files4 := condRemove files3 "AI_START_HERE.md"
    (true, { d with files := files4, refs := refs2, refsDirExists := refsEx2 })

/-! ## The driver (`main`, lines 145-172) -/

/-- A first-level organization directory: its name and its persona
subdirectories.  Non-directory children are not part of the model, matching
the `is_dir()` filters of lines 156-158. -/
structure Org : Type where
  name : String
  personas : List Dir

/-- The world the driver sees: whether the root `personas/` directory
exists, and its organization subtree. -/
structure World : Type where
  rootExists : Bool
  orgs : List Org

/-- Lines 154-159: the collected persona directories, each tagged with its
organization name; the `templates` organization is skipped. -/
def collectDirs (w : World) : List (String × Dir) :=
  (w.orgs.filter (fun o => !(o.name = "templates" : Bool))).flatMap
    (fun o => o.personas.map (fun d => (o.name, d)))

/-- Sort key of a persona directory, standing for its relative path as
compared by `sorted(persona_dirs)` (line 164). -/
def dirKey (p : String × Dir) : String := p.1 ++ "/" ++ p.2.name

/-- Stable insertion into a key-sorted list. -/
def insertSorted (x : String × Dir) : List (String × Dir) → List (String × Dir)
  | [] => [x]
  | y :: ys => if dirKey x ≤ dirKey y then x :: y :: ys else y :: insertSorted x ys

/-- The sort applied by `sorted(persona_dirs)` (line 164). -/
def sortDirs : List (String × Dir) → List (String × Dir)
  | [] => []
  | x :: xs => insertSorted x (sortDirs xs)

/-- Lines 163-168: the conversion loop; returns the success count and the
final state of every processed directory (in processing order). -/
def runAll : List (String × Dir) → Nat × List (String × Dir)
  | [] => (0, [])
  | (o, d) :: rest =>
    let r := create_skill_md d
    let rr := runAll rest
    ((if r.1 then 1 else 0) + rr.1, (o, r.2) :: rr.2)

/-- Lines 145-172: the driver.  Returns the exit code (`exit(main())`), the
success count, and the final on-disk state of the persona directories; a
missing root returns exit code 1 with every directory untouched. -/
def pmain (w : World) : Nat × Nat × List (String × Dir) :=
  if w.rootExists then
    let r := runAll (sortDirs (collectDirs w))
    (0, r.1, r.2)
  else (1, 0, collectDirs w)

/-! ## Association-list lemmas -/

theorem alookup_aset_self {α : Type} (l : List (String × α)) (k : String) (v : α) :
    alookup (aset l k v) k = some v := by
  induction l with
  | nil => simp [aset, alookup]
  | cons p rest ih =>
    by_cases h : p.1 = k
    · simp [aset, h, alookup]
    · simp [aset, h, alookup, ih]

theorem alookup_aset_ne {α : Type} (l : List (String × α)) (k k' : String) (v : α)
    (h : k' ≠ k) : alookup (aset l k v) k' = alookup l k' := by
  have hk : ¬(k = k') := fun hh => h hh.symm
  induction l with
  | nil => simp [aset, alookup, hk]
  | cons p rest ih =>
    by_cases hp : p.1 = k
    · subst hp
      simp [aset, alookup, hk]
    · by_cases hp' : p.1 = k'
      · simp [aset, hp, alookup, hp', h]
      · simp [aset, hp, alookup, hp', ih]

theorem alookup_filterKey {α : Type} (P : String → Bool) (l : List (String × α)) (k : String) :
    alookup (l.filter (fun p => P p.1)) k = if P k then alookup l k else none := by
  induction l with
  | nil => simp [alookup]
  | cons p rest ih =>
    by_cases hp : p.1 = k
    · subst hp
      by_cases hP : P p.1
      · simp [List.filter, hP, alookup, ih]
      · simp only [List.filter, hP, Bool.false_eq_true, if_false]
        rw [ih]
        simp [hP]
    · by_cases hP : P p.1
      · simp [List.filter, hP, alookup, hp, ih]
      · simp [List.filter, hP, ih, alookup, hp]

theorem alookup_aremove_self {α : Type} (l : List (String × α)) (k : String) :
    alookup (aremove l k) k = none := by
  simpa [aremove] using alookup_filterKey (fun s => !(s = k : Bool)) l k

theorem alookup_aremove_ne {α : Type} (l : List (String × α)) (k k' : String)
    (h : k' ≠ k) : alookup (aremove l k) k' = alookup l k' := by
  simpa [aremove, h] using alookup_filterKey (fun s => !(s = k : Bool)) l k'

theorem alookup_condRemove_self {α : Type} (l : List (String × α)) (k : String) :
    alookup (condRemove l k) k = none := by
  unfold condRemove
  by_cases h : (alookup l k).isSome
  · simp [h, alookup_aremove_self]
  · simp only [h, if_false, Bool.false_eq_true]
    cases hl : alookup l k with
    | none => rfl
    | some v => simp [hl] at h

theorem alookup_condRemove_ne {α : Type} (l : List (String × α)) (k k' : String)
    (h : k' ≠ k) : alookup (condRemove l k) k' = alookup l k' := by
  unfold condRemove
  by_cases hs : (alookup l k).isSome
  · simp [hs, alookup_aremove_ne l k k' h]
  · simp [hs]

/-! ## Field lemmas for the metadata record -/

theorem alookup_extract_name (content persona_name : String) :
    alookup (extract_metadata_from_persona content persona_name) "name"
      = some (YVal.str persona_name) := by
  simp only [extract_metadata_from_persona]
  rw [alookup_aset_ne _ _ _ _ (by decide), alookup_aset_ne _ _ _ _ (by decide)]
  rfl

theorem descriptionOf_extract (content persona_name : String) :
    alookup (extract_metadata_from_persona content persona_name) "description"
      = some (YVal.str (String.mk ((List.intercalate [' ']
          (descScan (splitChar '\n' (trimWs content.toList)) [] true none).1).take 500))) := by
  simp only [extract_metadata_from_persona]
  rw [alookup_aset_ne _ _ _ _ (by decide)]
  exact alookup_aset_self _ _ _

theorem alookup_addStandard_name (m : List (String × YVal)) :
    alookup (addStandardFields m) "name" = alookup m "name" := by
  simp only [addStandardFields]
  rw [alookup_aset_ne _ _ _ _ (by decide), alookup_aset_ne _ _ _ _ (by decide),
    alookup_aset_ne _ _ _ _ (by decide)]

theorem alookup_addStandard_description (m : List (String × YVal)) :
    alookup (addStandardFields m) "description" = alookup m "description" := by
  simp only [addStandardFields]
  rw [alookup_aset_ne _ _ _ _ (by decide), alookup_aset_ne _ _ _ _ (by decide),
    alookup_aset_ne _ _ _ _ (by decide)]

theorem alookup_addStandard_license (m : List (String × YVal)) :
    alookup (addStandardFields m) "license" = some (YVal.str "Proprietary") := by
  simp only [addStandardFields]
  rw [alookup_aset_ne _ _ _ _ (by decide), alookup_aset_ne _ _ _ _ (by decide),
    alookup_aset_self]

theorem alookup_addStandard_compatibility (m : List (String × YVal)) :
    alookup (addStandardFields m) "compatibility" = some (YVal.str "Designed for Loom") := by
  simp only [addStandardFields]
  rw [alookup_aset_ne _ _ _ _ (by decide), alookup_aset_self]

theorem innerMeta_addStandard (m : List (String × YVal)) :
    innerMeta (addStandardFields m)
      = aset (aset (innerMeta m) "author" (YLeaf.str "loom")) "version" (YLeaf.str "1.0") := by
  have h2 : alookup (aset (aset m "license" (YVal.str "Proprietary")) "compatibility"
      (YVal.str "Designed for Loom")) "metadata" = alookup m "metadata" := by
    rw [alookup_aset_ne _ _ _ _ (by decide), alookup_aset_ne _ _ _ _ (by decide)]
  simp only [addStandardFields, innerMeta, h2]
  rw [alookup_aset_self]

theorem alookup_addStandard_version (m : List (String × YVal)) :
    alookup (innerMeta (addStandardFields m)) "version" = some (YLeaf.str "1.0") := by
  rw [innerMeta_addStandard, alookup_aset_self]

theorem alookup_addStandard_author (m : List (String × YVal)) :
    alookup (innerMeta (addStandardFields m)) "author" = some (YLeaf.str "loom") := by
  rw [innerMeta_addStandard, alookup_aset_ne _ _ _ _ (by decide), alookup_aset_self]

/-! ## Claim theorems: extractor invariants -/

/-- C9: for every input text and directory name, the `description` field of
the metadata record produced by `extract_metadata_from_persona` has length
at most 500 characters (the `[:500]` slice of line 49). -/
theorem C9_description_length (content persona_name : String) :
    (descriptionOf (extract_metadata_from_persona content persona_name)).length ≤ 500 := by
  simp only [descriptionOf, descriptionOf_extract content persona_name]
  exact Nat.le_trans (Nat.le_of_eq (List.length_take _ _)) (Nat.min_le_left _ _)

/-- C10: for every input text and directory name, the metadata record
serialized into the frontmatter of `SKILL.md` contains the key `name`
(holding the directory base name), a `description` key (present even when
the extracted description is empty), `license = Proprietary`,
`compatibility = Designed for Loom`, and the nested `metadata` dict
contains `author = loom` and `version = 1.0`, regardless of the optional
patterns in the source text. -/
theorem C10_frontmatter_constants (content persona_name : String) :
    alookup (addStandardFields (extract_metadata_from_persona content persona_name)) "name"
        = some (YVal.str persona_name) ∧
      (∃ s : String,
        alookup (addStandardFields (extract_metadata_from_persona content persona_name))
          "description" = some (YVal.str s)) ∧
      alookup (addStandardFields (extract_metadata_from_persona content persona_name)) "license"
        = some (YVal.str "Proprietary") ∧
      alookup (addStandardFields (extract_metadata_from_persona content persona_name))
        "compatibility" = some (YVal.str "Designed for Loom") ∧
      alookup (innerMeta (addStandardFields (extract_metadata_from_persona content persona_name)))
        "author" = some (YLeaf.str "loom") ∧
      alookup (innerMeta (addStandardFields (extract_metadata_from_persona content persona_name)))
        "version" = some (YLeaf.str "1.0") := by
  refine ⟨?_, ?_, ?_, ?_, ?_, ?_⟩
  · rw [alookup_addStandard_name, alookup_extract_name]
  · exact ⟨_, by rw [alookup_addStandard_description, descriptionOf_extract]⟩
  · exact alookup_addStandard_license _
  · exact alookup_addStandard_compatibility _
  · exact alookup_addStandard_author _
  · exact alookup_addStandard_version _

/-- C4: on the Scenario A text, the extractor produces
role `Data Analyst`, description `Helps with data.`, autonomy level `high`
and specialties `[sql, python, charts]`. -/
theorem C4_scenarioA_extraction :
    alookup (innerMeta (extract_metadata_from_persona
        "# Data Analyst\nHelps with data.\n\nAutonomy Level: high\n\nSpecialties: sql, python, charts\n"
        "data-analyst")) "role" = some (YLeaf.str "Data Analyst") ∧
    descriptionOf (extract_metadata_from_persona
        "# Data Analyst\nHelps with data.\n\nAutonomy Level: high\n\nSpecialties: sql, python, charts\n"
        "data-analyst") = "Helps with data." ∧
    alookup (innerMeta (extract_metadata_from_persona
        "# Data Analyst\nHelps with data.\n\nAutonomy Level: high\n\nSpecialties: sql, python, charts\n"
        "data-analyst")) "autonomy_level" = some (YLeaf.str "high") ∧
    alookup (innerMeta (extract_metadata_from_persona
        "# Data Analyst\nHelps with data.\n\nAutonomy Level: high\n\nSpecialties: sql, python, charts\n"
        "data-analyst")) "specialties" = some (YLeaf.list ["sql", "python", "charts"]) := by
  refine ⟨?_, ?_, ?_, ?_⟩ <;> rfl

/-! ## Claim C1: postcondition of a successful migration -/

/-- C1: for every persona directory containing `PERSONA.md`, the migration
succeeds (`create_skill_md` returns `True`) and afterwards `SKILL.md`
exists (holding the assembled document), `PERSONA.md` and
`AI_START_HERE.md` no longer exist, and the `name` field of the metadata
record serialized into the `SKILL.md` frontmatter equals the directory
base name. -/
theorem C1_migration_postcondition (d : Dir) (pc : String)
    (h : alookup d.files "PERSONA.md" = some pc) :
    (create_skill_md d).1 = true ∧
    alookup (create_skill_md d).2.files "SKILL.md"
      = some (skillContent d.name pc ((alookup d.files "AI_START_HERE.md").getD "")) ∧
    alookup (create_skill_md d).2.files "PERSONA.md" = none ∧
    alookup (create_skill_md d).2.files "AI_START_HERE.md" = none ∧
    alookup (addStandardFields (extract_metadata_from_persona pc d.name)) "name"
      = some (YVal.str d.name) := by
  refine ⟨?_, ?_, ?_, ?_, ?_⟩
  · simp only [create_skill_md, h]
  · simp only [create_skill_md, h]
    rw [alookup_condRemove_ne _ _ _ (by decide), alookup_condRemove_ne _ _ _ (by decide)]
    by_cases hE : ((aset d.files "SKILL.md"
        (skillContent d.name pc ((alookup d.files "AI_START_HERE.md").getD ""))).filter
          (fun p => !skillNames.contains p.1)).isEmpty
    · simp only [hE, if_true]
      exact alookup_aset_self _ _ _
    · simp only [hE, if_false, Bool.false_eq_true]
      rw [alookup_filterKey (fun k => skillNames.contains k)]
      simp only [show skillNames.contains "SKILL.md" = true from rfl, if_true]
      exact alookup_aset_self _ _ _
  · simp only [create_skill_md, h]
    rw [alookup_condRemove_ne _ _ _ (by decide)]
    exact alookup_condRemove_self _ _
  · simp only [create_skill_md, h]
    exact alookup_condRemove_self _ _
  · rw [alookup_addStandard_name, alookup_extract_name]

/-- Concrete persona directory used to instantiate `C1_migration_postcondition`. -/
def exDirC1 : Dir :=
  { name := "data-analyst",
    files := [("PERSONA.md", "# Data Analyst\nHelps with data.\n")],
    refs := [], refsDirExists := false }

/-- Witness for C1 at a concrete directory holding only `PERSONA.md`. -/
theorem C1_migration_postcondition_witness :
    (create_skill_md exDirC1).1 = true ∧
    alookup (create_skill_md exDirC1).2.files "SKILL.md"
      = some (skillContent exDirC1.name "# Data Analyst\nHelps with data.\n"
          ((alookup exDirC1.files "AI_START_HERE.md").getD "")) ∧
    alookup (create_skill_md exDirC1).2.files "PERSONA.md" = none ∧
    alookup (create_skill_md exDirC1).2.files "AI_START_HERE.md" = none ∧
    alookup (addStandardFields (extract_metadata_from_persona
        "# Data Analyst\nHelps with data.\n" exDirC1.name)) "name"
      = some (YVal.str exDirC1.name) :=
  C1_migration_postcondition exDirC1 "# Data Analyst\nHelps with data.\n" rfl

/-! ## Claim C2: a directory without `PERSONA.md` is skipped untouched -/

/-- C2: a persona directory lacking `PERSONA.md` makes `create_skill_md`
return failure with the directory state unchanged (no file created, moved
or deleted), and the conversion loop still processes every other
directory, leaving the failing one out of the success count. -/
theorem C2_missing_persona_skip (d : Dir) (o : String) (pre post : List (String × Dir))
    (h : alookup d.files "PERSONA.md" = none) :
    create_skill_md d = (false, d) ∧
    runAll (pre ++ (o, d) :: post)
      = ((runAll pre).1 + (runAll post).1, (runAll pre).2 ++ (o, d) :: (runAll post).2) := by
  have hcd : create_skill_md d = (false, d) := by simp [create_skill_md, h]
  refine ⟨hcd, ?_⟩
  induction pre with
  | nil => simp [runAll, hcd]
  | cons p rest ih =>
    obtain ⟨op, dp⟩ := p
    simp [runAll, ih, Nat.add_assoc]

/-- Concrete directory without `PERSONA.md` (for instance one that was
already migrated). -/
def exDirNoPersona : Dir :=
  { name := "already-migrated", files := [("SKILL.md", "---\nname: x\n---\n")],
    refs := [], refsDirExists := false }

/-- Concrete healthy directory used around the failing one. -/
def exDirOk : Dir :=
  { name := "writer", files := [("PERSONA.md", "# Writer\nWrites.\n")],
    refs := [], refsDirExists := false }

/-- Witness for C2: the failing directory sits between two processed ones. -/
theorem C2_missing_persona_skip_witness :
    create_skill_md exDirNoPersona = (false, exDirNoPersona) ∧
    runAll ([("acme", exDirOk)] ++ ("acme", exDirNoPersona) :: [("zeta", exDirOk)])
      = ((runAll [("acme", exDirOk)]).1 + (runAll [("zeta", exDirOk)]).1,
         (runAll [("acme", exDirOk)]).2 ++ ("acme", exDirNoPersona) :: (runAll [("zeta", exDirOk)]).2) :=
  C2_missing_persona_skip exDirNoPersona "acme" [("acme", exDirOk)] [("zeta", exDirOk)] rfl

/-! ## Claim C3: process exit status -/

/-- C3: the driver returns exit status 1 with every persona directory left
untouched when the root `personas/` directory does not exist, and exit
status 0 on every normal completion, in particular also when individual
persona directories fail to migrate. -/
theorem C3_exit_codes (w : World) :
    (w.rootExists = false → pmain w = (1, 0, collectDirs w)) ∧
    (w.rootExists = true → (pmain w).1 = 0) := by
  constructor
  · intro h
    simp [pmain, h]
  · intro h
    simp [pmain, h]

/-- World without a root `personas/` directory. -/
def exWorldNoRoot : World :=
  { rootExists := false, orgs := [{ name := "acme", personas := [exDirOk] }] }

/-- World whose single persona directory fails to migrate. -/
def exWorldFailingDir : World :=
  { rootExists := true, orgs := [{ name := "acme", personas := [exDirNoPersona] }] }

/-- Witness for C3: a missing root gives exit code 1 and no mutation; a
run over a failing directory still exits with code 0. -/
theorem C3_exit_codes_witness :
    pmain exWorldNoRoot = (1, 0, collectDirs exWorldNoRoot) ∧
    (pmain exWorldFailingDir).1 = 0 :=
  ⟨(C3_exit_codes exWorldNoRoot).1 rfl, (C3_exit_codes exWorldFailingDir).2 rfl⟩

/-! ## Claim C7: list lines and the description scan -/

/-- Counterexample to C7: for the text `# Role` followed by the list line
`- item one`, the extracted description is exactly that list line — a line
beginning with the list marker IS accumulated when it is the first line
after the heading block, contradicting the claim that no such line is ever
included. -/
theorem C7_cex :
    descriptionOf (extract_metadata_from_persona "# Role\n- item one\n" "p")
      = "- item one" := by
  rfl

/-- C7 (amended): once description accumulation is outside a header block
(`in_header` false), a line whose stripped form begins with the list
marker `-` stops the scan with the accumulator unchanged; but while
`in_header` is true — at the start of the text or right after a heading —
the next non-blank non-heading line is accumulated unconditionally, even
when it begins with the list marker. -/
theorem C7_list_line_rules (l : List Char) (ls : List (List Char))
    (acc : List (List Char)) (role : Option (List Char))
    (hd : (trimWs l).head? = some '-') :
    descScan (l :: ls) acc false role = (acc, role) ∧
    descScan (l :: ls) acc true role = descScan ls (acc ++ [trimWs l]) false role := by
  obtain ⟨t, ht⟩ : ∃ t, trimWs l = '-' :: t := by
    cases h : trimWs l with
    | nil => rw [h] at hd; simp at hd
    | cons c t =>
      rw [h] at hd
      simp only [List.head?] at hd
      exact ⟨t, by rw [Option.some_inj] at hd; rw [hd]⟩
  constructor
  · simp [descScan, ht]
  · simp [descScan, ht]

/-- Witness for the amended C7 at a concrete list line. -/
theorem C7_list_line_rules_witness :
    descScan ["- item one".toList] ["Desc.".toList] false none = (["Desc.".toList], none) ∧
    descScan ["- item one".toList] ["Desc.".toList] true none
      = descScan [] (["Desc.".toList] ++ [trimWs "- item one".toList]) false none :=
  C7_list_line_rules "- item one".toList [] ["Desc.".toList] none rfl

/-! ## List-scan helper lemmas -/

theorem dropWhile_append_all {α : Type} (p : α → Bool) (a b : List α)
    (h : ∀ c ∈ a, p c = true) : (a ++ b).dropWhile p = b.dropWhile p := by
  induction a with
  | nil => rfl
  | cons c t ih =>
    simp only [List.cons_append, List.dropWhile_cons, h c (by simp), if_true]
    exact ih (fun x hx => h x (by simp [hx]))

theorem dropWhile_append_last {α : Type} (p : α → Bool) (a : List α) (x : α)
    (hx : p x = false) : (a ++ [x]).dropWhile p = a.dropWhile p ++ [x] := by
  induction a with
  | nil => simp [List.dropWhile_cons, hx]
  | cons c t ih =>
    by_cases hc : p c
    · simp [List.dropWhile_cons, hc, ih]
    · simp [List.dropWhile_cons, hc]

theorem takeWhile_all {α : Type} (p : α → Bool) (l : List α)
    (h : ∀ c ∈ l, p c = true) : l.takeWhile p = l := by
  induction l with
  | nil => rfl
  | cons c t ih =>
    simp only [List.takeWhile_cons, h c (by simp), if_true]
    rw [ih (fun x hx => h x (by simp [hx]))]

theorem dropWhile_none {α : Type} (p : α → Bool) (l : List α)
    (h : ∀ c ∈ l, p c = false) : l.dropWhile p = l := by
  cases l with
  | nil => rfl
  | cons c t => simp [List.dropWhile_cons, h c (by simp)]

theorem mem_of_mem_rtrimWs (c : Char) (l : List Char) (h : c ∈ rtrimWs l) : c ∈ l := by
  simp only [rtrimWs, List.mem_reverse] at h
  exact List.mem_reverse.mp ((List.dropWhile_sublist pySpace).subset h)

/-- Python `str.strip()` leaves a string without whitespace characters
unchanged. -/
theorem trimWs_eq_self (l : List Char) (h : ∀ c ∈ l, pySpace c = false) : trimWs l = l := by
  have h1 : ltrimWs l = l := dropWhile_none pySpace l h
  have h2 : rtrimWs l = l := by
    simp only [rtrimWs]
    rw [dropWhile_none pySpace l.reverse (fun c hc => h c (List.mem_reverse.mp hc))]
    exact List.reverse_reverse l
  simp [trimWs, h1, h2]

/-! ## Claim C6: quick-start heading stripping -/

/-- Counterexample to C6: the quick-start text consisting solely of the
heading line `# Getting Started` and a blank line is NOT emptied by the
heading strip — `.strip()` removes the trailing newline first, the pattern
`^#[^#\n]+\n+` then finds no newline and fails, the heading remains, and a
`# Quick Start` block containing the original heading is produced. -/
theorem C6_cex :
    stripQuickStart "# Getting Started\n".toList = "# Getting Started".toList ∧
    quickStartPart "# Getting Started\n".toList
      = ["# Quick Start\n\n# Getting Started".toList] := by
  constructor <;> rfl

/-- C6 (amended): a non-empty quick-start text consisting solely of a
single leading heading line (`#` followed by non-`#`, non-newline
characters) and trailing blank whitespace keeps its heading: the
whitespace strip removes the trailing newlines, the heading-removal
pattern (which requires a following newline) does not apply, content
remains, and the `# Quick Start` heading is prepended to the surviving
heading line.  In general the `# Quick Start` block is produced exactly
when content remains after the strip. -/
theorem C6_quickstart_heading (run nl : List Char)
    (hrun : ∀ c ∈ run, ¬c = '#' ∧ ¬c = '\n')
    (hnl : ∀ c ∈ nl, pySpace c = true) :
    stripQuickStart ('#' :: (run ++ nl)) = '#' :: rtrimWs run ∧
    quickStartPart ('#' :: (run ++ nl)) = ["# Quick Start\n\n".toList ++ '#' :: rtrimWs run] ∧
    (∀ ai : List Char, ai.isEmpty = false →
      (quickStartPart ai = [] ↔ (stripQuickStart ai).isEmpty = true)) := by
  have htrim : trimWs ('#' :: (run ++ nl)) = '#' :: rtrimWs run := by
    have hl : ltrimWs ('#' :: (run ++ nl)) = '#' :: (run ++ nl) := by
      simp [ltrimWs, List.dropWhile_cons, pySpace]
    simp only [trimWs, hl, rtrimWs, List.reverse_cons, List.reverse_append]
    rw [List.append_assoc, dropWhile_append_all pySpace nl.reverse _
      (fun c hc => hnl c (List.mem_reverse.mp hc))]
    rw [dropWhile_append_last pySpace run.reverse '#' (by simp [pySpace])]
    simp
  have hstrip : stripQuickStart ('#' :: (run ++ nl)) = '#' :: rtrimWs run := by
    simp only [stripQuickStart, htrim]
    have hta : (rtrimWs run).takeWhile (fun x => !(x = '#' : Bool) && !(x = '\n' : Bool))
        = rtrimWs run := by
      refine takeWhile_all _ _ (fun c hc => ?_)
      have := hrun c (mem_of_mem_rtrimWs c run hc)
      simp [this.1, this.2]
    simp only [if_true]
    rw [hta, List.drop_length]
    by_cases hE : (rtrimWs run).isEmpty
    · simp [hE]
    · simp [hE]
  refine ⟨hstrip, ?_, ?_⟩
  · simp only [quickStartPart, List.isEmpty_cons, hstrip]
    simp
  · intro ai hne
    simp only [quickStartPart, hne, Bool.false_eq_true, if_false]
    by_cases hE : (stripQuickStart ai).isEmpty
    · simp [hE]
    · simp [hE]

/-- Witness for the amended C6 at the heading line `# Getting Started`
followed by one blank line. -/
theorem C6_quickstart_heading_witness :
    stripQuickStart ('#' :: (" Getting Started".toList ++ ['\n']))
        = '#' :: rtrimWs " Getting Started".toList ∧
    quickStartPart ('#' :: (" Getting Started".toList ++ ['\n']))
        = ["# Quick Start\n\n".toList ++ '#' :: rtrimWs " Getting Started".toList] ∧
    (quickStartPart "# Intro\nUse it.\n".toList = []
      ↔ (stripQuickStart "# Intro\nUse it.\n".toList).isEmpty = true) :=
  ⟨(C6_quickstart_heading " Getting Started".toList ['\n'] (by decide) (by decide)).1,
   (C6_quickstart_heading " Getting Started".toList ['\n'] (by decide) (by decide)).2.1,
   (C6_quickstart_heading " Getting Started".toList ['\n'] (by decide) (by decide)).2.2
     "# Intro\nUse it.\n".toList rfl⟩

/-! ## Claim C5: the singular specialties label

The regex of line 57 is `Specialties?:` — the optional group is the
trailing `s`, so the recognized singular form is `Specialtie:`, not
`Specialty:`. -/

theorem toList_mk (l : List Char) : (String.mk l).toList = l := rfl

/-- Comma-and-space joining, used to build the test inputs of the amended
C5 (the inverse image of the `split(',')` + `strip()` of lines 59-60). -/
def commaJoin : List (List Char) → List Char
  | [] => []
  | [i] => i
  | i :: is => i ++ ',' :: ' ' :: commaJoin is

theorem commaJoin_cons2 (i j : List Char) (r : List (List Char)) :
    commaJoin (i :: j :: r) = i ++ ',' :: ' ' :: commaJoin (j :: r) := rfl

theorem mem_commaJoin (c : Char) (items : List (List Char)) (h : c ∈ commaJoin items) :
    (∃ i ∈ items, c ∈ i) ∨ c = ',' ∨ c = ' ' := by
  induction items with
  | nil => simp [commaJoin] at h
  | cons i rest ih =>
    cases rest with
    | nil =>
      simp only [commaJoin] at h
      exact Or.inl ⟨i, by simp, h⟩
    | cons j r2 =>
      rw [commaJoin_cons2] at h
      rcases List.mem_append.mp h with hin | hsep
      · exact Or.inl ⟨i, by simp, hin⟩
      · simp only [List.mem_cons] at hsep
        rcases hsep with hc | hc | hc
        · exact Or.inr (Or.inl hc)
        · exact Or.inr (Or.inr hc)
        · rcases ih hc with ⟨i2, hi2, hci⟩ | hr
          · exact Or.inl ⟨i2, by simp [hi2], hci⟩
          · exact Or.inr hr

theorem splitChar_no_sep (sep : Char) (l : List Char) (h : ∀ c ∈ l, ¬c = sep) :
    splitChar sep l = [l] := by
  induction l with
  | nil => rfl
  | cons c t ih =>
    simp only [splitChar, h c (by simp), if_false]
    rw [ih (fun x hx => h x (by simp [hx]))]

theorem splitChar_append_sep (sep : Char) (a b : List Char) (h : ∀ c ∈ a, ¬c = sep) :
    splitChar sep (a ++ sep :: b) = a :: splitChar sep b := by
  induction a with
  | nil => simp [splitChar]
  | cons c t ih =>
    simp only [List.cons_append, splitChar, h c (by simp), if_false, List.append_eq]
    rw [ih (fun x hx => h x (by simp [hx]))]

theorem splitChar_commaJoin (i0 : List Char) (rest : List (List Char))
    (h : ∀ i ∈ i0 :: rest, ∀ c ∈ i, ¬c = ',') :
    splitChar ',' (commaJoin (i0 :: rest)) = i0 :: rest.map (fun i => ' ' :: i) := by
  induction rest generalizing i0 with
  | nil =>
    simp only [commaJoin, List.map_nil]
    exact splitChar_no_sep ',' i0 (h i0 (by simp))
  | cons j r2 ih =>
    rw [commaJoin_cons2]
    rw [splitChar_append_sep ',' i0 _ (h i0 (by simp))]
    have hno : ¬(' ' = ',') := by decide
    have hsp : splitChar ',' (' ' :: commaJoin (j :: r2))
        = (' ' :: j) :: r2.map (fun i => ' ' :: i) := by
      simp only [splitChar, hno, if_false]
      rw [ih j (fun i hi => h i (by simp [hi]))]
    rw [hsp]
    simp

theorem rtrimWs_eq_self (l : List Char) (h : ∀ c ∈ l, pySpace c = false) : rtrimWs l = l := by
  simp only [rtrimWs]
  rw [dropWhile_none pySpace l.reverse (fun c hc => h c (List.mem_reverse.mp hc))]
  exact List.reverse_reverse l

theorem trimWs_space_cons (i : List Char) (h : ∀ c ∈ i, pySpace c = false) :
    trimWs (' ' :: i) = i := by
  have hl : ltrimWs (' ' :: i) = i := by
    simp only [ltrimWs, List.dropWhile_cons, show pySpace ' ' = true from rfl, if_true]
    exact dropWhile_none pySpace i h
  simp only [trimWs, hl]
  exact rtrimWs_eq_self i h

theorem takeNonNl_all (l : List Char) (h : ∀ c ∈ l, ¬c = '\n') : takeNonNl l = l :=
  takeWhile_all _ l (fun c hc => by simp [h c hc])

theorem specColonTail_concrete (c0 : Char) (bt : List Char)
    (h0 : pySpace c0 = false) (hnl : ∀ c ∈ c0 :: bt, ¬c = '\n') :
    specColonTail (':' :: ' ' :: c0 :: bt) = some (c0 :: bt) := by
  have hK : List.takeWhile pySpace (' ' :: c0 :: bt) = [' '] := by
    have hws : pySpace ' ' = true := rfl
    simp [List.takeWhile_cons, hws, h0]
  have hc0 : ¬c0 = '\n' := hnl c0 (by simp)
  show specTry (' ' :: c0 :: bt) (List.takeWhile pySpace (' ' :: c0 :: bt)).length
      = some (c0 :: bt)
  rw [hK]
  simp only [List.length_cons, List.length_nil, Nat.zero_add]
  have hstep : specTry (' ' :: c0 :: bt) 1
      = if c0 = '\n' then specTry (' ' :: c0 :: bt) 0 else some (c0 :: takeNonNl bt) := rfl
  rw [hstep, if_neg hc0, takeNonNl_all bt (fun c hc => hnl c (by simp [hc]))]

theorem specAt_specialtie_label (body : List Char) :
    specAt ("Specialtie: ".toList ++ body) = specColonTail (':' :: ' ' :: body) := rfl

theorem specAt_specialties_label (body : List Char) :
    specAt ("Specialties: ".toList ++ body)
      = (match specColonTail (':' :: ' ' :: body) with
         | some g => some g
         | none => specColonTail ("s: ".toList ++ body)) := rfl

theorem specSearch_specialtie (body : List Char)
    (hct : specColonTail (':' :: ' ' :: body) = some body) :
    specSearch ("Specialtie: ".toList ++ body) = some body := by
  have hstep : specSearch ("Specialtie: ".toList ++ body)
      = (match specAt ("Specialtie: ".toList ++ body) with
         | some g => some g
         | none => specSearch ("pecialtie: ".toList ++ body)) := rfl
  rw [hstep, specAt_specialtie_label, hct]

theorem specSearch_specialties (body : List Char)
    (hct : specColonTail (':' :: ' ' :: body) = some body) :
    specSearch ("Specialties: ".toList ++ body) = some body := by
  have hstep : specSearch ("Specialties: ".toList ++ body)
      = (match specAt ("Specialties: ".toList ++ body) with
         | some g => some g
         | none => specSearch ("pecialties: ".toList ++ body)) := rfl
  rw [hstep, specAt_specialties_label, hct]

theorem alookup_extract_specialties (content persona_name : String) (g : List Char)
    (hs : specSearch content.toList = some g) :
    alookup (innerMeta (extract_metadata_from_persona content persona_name)) "specialties"
      = some (YLeaf.list ((splitChar ',' g).map (fun p => String.mk (trimWs p)))) := by
  simp only [extract_metadata_from_persona, innerMeta]
  rw [alookup_aset_self]
  simp only [hs]
  exact alookup_aset_self _ _ _

/-- Counterexample to C5: for a text carrying the singular label
`Specialty:` followed by comma-separated items, the extractor records NO
specialties — the regex `Specialties?:` only makes the trailing `s`
optional, so it matches `Specialtie:`/`Specialties:` but not `Specialty:`. -/
theorem C5_cex :
    alookup (innerMeta (extract_metadata_from_persona "Specialty: sql, python\n" "p"))
      "specialties" = none := by
  rfl

/-- C5 (amended): the optional-`s` singular form recognized by the code is
`Specialtie:`, not `Specialty:`.  For every text of the form
`Specialtie: <items>` with comma-and-space separated, whitespace-free,
comma-free items, the extractor records `specialties` as the ordered
comma-split whitespace-trimmed pieces — exactly as it does for the plural
label `Specialties:`. -/
theorem C5_specialtie_label (items : List (List Char)) (persona_name : String)
    (hne : items ≠ [])
    (hItems : ∀ i ∈ items, i ≠ [] ∧ ∀ c ∈ i, pySpace c = false ∧ ¬c = ',') :
    alookup (innerMeta (extract_metadata_from_persona
        (String.mk ("Specialtie: ".toList ++ commaJoin items)) persona_name)) "specialties"
      = some (YLeaf.list (items.map String.mk)) ∧
    alookup (innerMeta (extract_metadata_from_persona
        (String.mk ("Specialties: ".toList ++ commaJoin items)) persona_name)) "specialties"
      = some (YLeaf.list (items.map String.mk)) := by
  rcases items with _ | ⟨i0, rest⟩
  · exact absurd rfl hne
  rcases i0 with _ | ⟨c0, i0t⟩
  · exact absurd rfl (hItems [] (by simp)).1
  have hc0 : pySpace c0 = false := ((hItems (c0 :: i0t) (by simp)).2 c0 (by simp)).1
  have hnoNl : ∀ c ∈ commaJoin ((c0 :: i0t) :: rest), ¬c = '\n' := by
    intro c hcmem
    rcases mem_commaJoin c _ hcmem with ⟨i, hi, hci⟩ | hc | hc
    · have hcs := ((hItems i hi).2 c hci).1
      intro hh
      rw [hh] at hcs
      exact absurd hcs (by decide)
    · rw [hc]; decide
    · rw [hc]; decide
  obtain ⟨bt, hbt⟩ : ∃ bt, commaJoin ((c0 :: i0t) :: rest) = c0 :: bt := by
    cases rest with
    | nil => exact ⟨i0t, rfl⟩
    | cons j r => exact ⟨i0t ++ ',' :: ' ' :: commaJoin (j :: r), rfl⟩
  have hct : specColonTail (':' :: ' ' :: commaJoin ((c0 :: i0t) :: rest))
      = some (commaJoin ((c0 :: i0t) :: rest)) := by
    rw [hbt]
    refine specColonTail_concrete c0 bt hc0 ?_
    rw [← hbt]
    exact hnoNl
  have hs1 := specSearch_specialtie _ hct
  have hs2 := specSearch_specialties _ hct
  have hsplitmap : (splitChar ',' (commaJoin ((c0 :: i0t) :: rest))).map
        (fun p => String.mk (trimWs p))
      = ((c0 :: i0t) :: rest).map String.mk := by
    rw [splitChar_commaJoin (c0 :: i0t) rest (fun i hi c hc => ((hItems i hi).2 c hc).2)]
    simp only [List.map_cons, List.map_map]
    congr 1
    · rw [trimWs_eq_self _ (fun c hc => ((hItems _ (by simp)).2 c hc).1)]
    · refine List.map_congr_left (fun i hi => ?_)
      show String.mk (trimWs (' ' :: i)) = String.mk i
      rw [trimWs_space_cons i (fun c hc => ((hItems i (by simp [hi])).2 c hc).1)]
  constructor
  · rw [alookup_extract_specialties _ persona_name _ hs1, hsplitmap]
  · rw [alookup_extract_specialties _ persona_name _ hs2, hsplitmap]

/-- Witness for the amended C5 at the items `sql` and `python`. -/
theorem C5_specialtie_label_witness :
    alookup (innerMeta (extract_metadata_from_persona
        (String.mk ("Specialtie: ".toList ++ commaJoin ["sql".toList, "python".toList])) "p"))
        "specialties"
      = some (YLeaf.list (["sql".toList, "python".toList].map String.mk)) ∧
    alookup (innerMeta (extract_metadata_from_persona
        (String.mk ("Specialties: ".toList ++ commaJoin ["sql".toList, "python".toList])) "p"))
        "specialties"
      = some (YLeaf.list (["sql".toList, "python".toList].map String.mk)) :=
  C5_specialtie_label ["sql".toList, "python".toList] "p" (by decide) (by decide)

/-! ## Claim C8: name collisions when moving files into `references/`

`Path.rename` (line 130) has `os.rename` semantics: on POSIX an existing
destination file is replaced silently, so a collision does not raise. -/

theorem mem_aset {α : Type} (l : List (String × α)) (k : String) (v : α)
    (p : String × α) (hp : p ∈ aset l k v) : p = (k, v) ∨ p ∈ l := by
  induction l with
  | nil => simpa [aset] using hp
  | cons q t ih =>
    by_cases hq : q.1 = k
    · simp only [aset, hq, if_true] at hp
      rcases List.mem_cons.mp hp with h1 | h1
      · exact Or.inl h1
      · exact Or.inr (by simp [h1])
    · simp only [aset, hq, if_false] at hp
      rcases List.mem_cons.mp hp with h1 | h1
      · exact Or.inr (by simp [h1])
      · rcases ih h1 with h2 | h2
        · exact Or.inl h2
        · exact Or.inr (by simp [h2])

theorem alookup_foldl_aset_mem {α : Type} (l : List (String × α)) (f : String) (v : α) :
    ∀ r : List (String × α),
      (∀ p ∈ l, p.1 = f → p.2 = v) →
      (alookup l f = some v ∨ alookup r f = some v) →
      alookup (l.foldl (fun r p => aset r p.1 p.2) r) f = some v := by
  induction l with
  | nil =>
    intro r _ hor
    rcases hor with h | h
    · simp [alookup] at h
    · simpa using h
  | cons q t ih =>
    intro r hall hor
    simp only [List.foldl_cons]
    refine ih (aset r q.1 q.2) (fun p hp hpf => hall p (by simp [hp]) hpf) ?_
    by_cases hq : q.1 = f
    · right
      have hv : q.2 = v := hall q (by simp) hq
      rw [← hq, hv]
      exact alookup_aset_self _ _ _
    · rcases hor with h | h
      · left
        simpa [alookup, hq] using h
      · right
        rw [alookup_aset_ne _ _ _ _ (fun hh => hq hh.symm)]
        exact h

/-- C8 (amended): when the migration moves an auxiliary file into
`references/` and a file of the same name already exists there, the move
SILENTLY REPLACES the existing file (POSIX `os.rename` semantics): no
error is raised, the directory migration completes successfully, and
afterwards `references/` holds the moved file content under that name. -/
theorem C8_silent_overwrite (d : Dir) (pc f v : String)
    (hpc : alookup d.files "PERSONA.md" = some pc)
    (hf : skillNames.contains f = false)
    (hv : alookup d.files f = some v)
    (huniq : ∀ p ∈ d.files, p.1 = f → p.2 = v) :
    (create_skill_md d).1 = true ∧
    alookup (create_skill_md d).2.refs f = some v := by
  have hfS : ¬f = "SKILL.md" := fun hh => absurd (hh ▸ hf) (by decide)
  constructor
  · simp only [create_skill_md, hpc]
  · simp only [create_skill_md, hpc]
    set c := skillContent d.name pc ((alookup d.files "AI_START_HERE.md").getD "") with hc
    set files1 := aset d.files "SKILL.md" c with hf1
    set addl := files1.filter (fun p => !skillNames.contains p.1) with haddl
    have hlookA : alookup addl f = some v := by
      rw [haddl, alookup_filterKey (fun k => !skillNames.contains k)]
      rw [hf]
      simp only [Bool.not_false, if_true]
      rw [hf1, alookup_aset_ne _ _ _ _ hfS]
      exact hv
    have hne : addl.isEmpty = false := by
      cases he : addl.isEmpty
      · rfl
      · exfalso
        rw [List.isEmpty_iff.mp he] at hlookA
        simp [alookup] at hlookA
    simp only [hne, Bool.false_eq_true, if_false]
    refine alookup_foldl_aset_mem addl f v d.refs ?_ (Or.inl hlookA)
    intro p hp hpf
    have hp1 : p ∈ files1 := List.mem_of_mem_filter (haddl ▸ hp)
    rcases mem_aset d.files "SKILL.md" c p (hf1 ▸ hp1) with hps | hpd
    · exact absurd (by rw [← hpf, hps]) hfS
    · exact huniq p hpd hpf

/-- Counterexample input for C8: the persona directory carries the
auxiliary file `notes.txt`, and `references/notes.txt` already exists. -/
def exDirC8 : Dir :=
  { name := "persona-x",
    files := [("PERSONA.md", "# X\nStuff.\n"), ("notes.txt", "NOTES-NEW")],
    refs := [("notes.txt", "NOTES-OLD")], refsDirExists := true }

/-- Counterexample to C8: with a name collision in `references/`, the
migration does NOT fail — it returns success and the pre-existing
`references/notes.txt` has been silently replaced by the moved file. -/
theorem C8_cex :
    (create_skill_md exDirC8).1 = true ∧
    alookup (create_skill_md exDirC8).2.refs "notes.txt" = some "NOTES-NEW" := by
  constructor <;> rfl

/-- Second collision directory, used to instantiate `C8_silent_overwrite`. -/
def exDirC8b : Dir :=
  { name := "persona-y",
    files := [("PERSONA.md", "# Y\nOther.\n"), ("data.csv", "CSV-NEW")],
    refs := [("data.csv", "CSV-OLD")], refsDirExists := true }

/-- Witness for the amended C8 at a concrete collision. -/
theorem C8_silent_overwrite_witness :
    (create_skill_md exDirC8b).1 = true ∧
    alookup (create_skill_md exDirC8b).2.refs "data.csv" = some "CSV-NEW" :=
  C8_silent_overwrite exDirC8b "# Y\nOther.\n" "data.csv" "CSV-NEW" rfl rfl rfl
    (by decide)
